import Mathlib

/-!
AI-timeline, `src/components/Timeline.jsx`.

A shallow embedding of the `ImprovedTimeline` component: the chronological
sort of the event list, the scroll handler that derives the active event
index, the navigation helper `scrollToEvent`, the progress-marker percentage
and the seasonal axis markers.

Numbers.  JavaScript numbers that hold calendar fields and time values are
integers here (`Int`); geometry (pixels) and percentages are exact rationals
(`ℚ`), so the factor `0.1` of the clamps is `1 / 10`.  A time value that is
`NaN` (an invalid `Date`) is `none`.

Dates.  `new Date(year, monthIndex, day)` follows ECMAScript: `MakeFullYear`
(years 0..99 mean 1900..1999), `MakeDay`, `MakeDate`, the local-time to UTC
conversion and `TimeClip`.  The host's time-zone offset is a parameter
`tza : Int → Int` (milliseconds to add to UTC at a given local time).
-/

namespace Timeline

/-! ## ECMAScript `Date` -/

/-- Milliseconds in a day. -/
def msPerDay : Int := 86400000

/-- ECMAScript `DayFromYear(y)`: the day number of 1 January of year `y`. -/
def DayFromYear (y : Int) : Int :=
  365 * (y - 1970) + (y - 1969) / 4 - (y - 1901) / 100 + (y - 1601) / 400

/-- ECMAScript `DaysInYear(y) = 366`, as a test. -/
def InLeapYear (y : Int) : Bool :=
  if y % 4 ≠ 0 then false
  else if y % 100 ≠ 0 then true
  else if y % 400 ≠ 0 then false
  else true

/-- Day within the year of the first day of month `mn` (0 = January). -/
def DayWithinYear (leap : Bool) (mn : Int) : Int :=
  let l : Int := if leap then 1 else 0
  if mn ≤ 0 then 0
  else if mn = 1 then 31
  else if mn = 2 then 59 + l
  else if mn = 3 then 90 + l
  else if mn = 4 then 120 + l
  else if mn = 5 then 151 + l
  else if mn = 6 then 181 + l
  else if mn = 7 then 212 + l
  else if mn = 8 then 243 + l
  else if mn = 9 then 273 + l
  else if mn = 10 then 304 + l
  else 334 + l

/-- ECMAScript `MakeDay(year, month, date)` on integers: the day number of
day `date` of month `month` (0-based, any integer) of year `year`. -/
def MakeDay (year month date : Int) : Int :=
  let ym := year + month / 12
  let mn := month % 12
  DayFromYear ym + DayWithinYear (InLeapYear ym) mn + date - 1

/-- ECMAScript `MakeFullYear`: a year in 0..99 stands for 1900 + year. -/
def MakeFullYear (year : Int) : Int :=
  if 0 ≤ year ∧ year ≤ 99 then 1900 + year else year

/-- ECMAScript `TimeClip`: a time value beyond ±8.64e15 ms is `NaN`. -/
def TimeClip (time : Int) : Option Int :=
  if 8640000000000000 < |time| then none else some time

/-- The time value of `new Date(year, monthIndex, day)` (hours, minutes,
seconds and milliseconds are 0); `none` is an invalid date. -/
def Date (tza : Int → Int) (year monthIndex day : Int) : Option Int :=
  let finalDate := MakeDay (MakeFullYear year) monthIndex day * msPerDay
  TimeClip (finalDate - tza finalDate)

/-- The subtraction `a - b` of two `Date` objects: the difference of the time
values, `NaN` when either is invalid. -/
def dateSub (a b : Option Int) : Option Int :=
  match a, b with
  | some x, some y => some (x - y)
  | _, _ => none

/-! ## Data model -/

/-- The `start_date` record of an event. -/
structure StartDate where
  year : Int
  month : Int
  day : Int
deriving DecidableEq

/-- The `text` record of an event. -/
structure EventText where
  headline : String
  text : String
deriving DecidableEq

/-- An entry of `TIMELINE_DATA.events`. -/
structure Event where
  start_date : StartDate
  text : EventText
deriving DecidableEq

/-! ## The loader: `[...TIMELINE_DATA.events].sort(...)` -/

/-- The comparator passed to `sort`:
`new Date(a.year, a.month - 1) - new Date(b.year, b.month - 1)`. -/
def comparator (tza : Int → Int) (a b : Event) : Option Int :=
  dateSub (Date tza a.start_date.year (a.start_date.month - 1) 1)
    (Date tza b.start_date.year (b.start_date.month - 1) 1)

/-- ECMAScript `SortCompare` for defined elements: the comparator's result,
with `NaN` read as `+0`. -/
def SortCompare {α : Type} (comparefn : α → α → Option Int) (x y : α) : Int :=
  match comparefn x y with
  | none => 0
  | some v => v

/-- The relation `Array.prototype.sort` orders by: `x` may stay before `y`. -/
def sortRel {α : Type} (comparefn : α → α → Option Int) (x y : α) : Prop :=
  SortCompare comparefn x y ≤ 0

instance {α : Type} (comparefn : α → α → Option Int) :
    DecidableRel (sortRel comparefn) :=
  fun x y => inferInstanceAs (Decidable (SortCompare comparefn x y ≤ 0))

/-- The `Array.prototype.sort(comparefn)` of ECMAScript 2019 and later, which
is a stable sort: elements that compare equal keep their order.  For a
consistent comparator the result is unique; it is computed here by stable
insertion. -/
def sort {α : Type} (comparefn : α → α → Option Int) (l : List α) : List α :=
  List.insertionSort (sortRel comparefn) l

/-- The component's `events`: a copy of the data, sorted by the comparator. -/
def events (tza : Int → Int) (data : List Event) : List Event :=
  sort (comparator tza) data

/-! ## The scroll-position tracker -/

/-- What `getBoundingClientRect()` gives for a card: the fields the handler
reads. -/
structure Rect where
  top : ℚ
  height : ℚ
deriving DecidableEq

/-- The geometry the handler reads from the host: `window.innerHeight`,
`window.scrollY` and `document.documentElement.scrollHeight`. -/
structure Host where
  innerHeight : ℚ
  scrollY : ℚ
  scrollHeight : ℚ
deriving DecidableEq

/-- The test `distance < minDistance`, where `minDistance` starts at
`Infinity` (`none`). -/
def ltMin (distance : ℚ) : Option ℚ → Bool
  | none => true
  | some m => decide (distance < m)

/-- The distance of a card's middle from the viewport's middle. -/
def cardDistance (scrollTop viewportMiddle : ℚ) (rect : Rect) : ℚ :=
  let cardMiddle := scrollTop + rect.top + rect.height / 2
  |cardMiddle - viewportMiddle|

/-- The loop `Array.from(cards).forEach((card, index) => ...)`: the state is
`(closestCard, minDistance)`, the cards left to visit start at `index`. -/
def scanCards (scrollTop viewportMiddle : ℚ) :
    List Rect → Nat → Nat × Option ℚ → Nat × Option ℚ
  | [], _, acc => acc
  | rect :: rest, index, (closestCard, minDistance) =>
    let distance := cardDistance scrollTop viewportMiddle rect
    if ltMin distance minDistance then
      scanCards scrollTop viewportMiddle rest (index + 1) (index, some distance)
    else
      scanCards scrollTop viewportMiddle rest (index + 1) (closestCard, minDistance)

/-- The handler `handleScroll`.  `timelineRef` is `timelineRef.current`:
`none` for `null`, otherwise the rectangles of the elements of class
`event-card` under it, in document order.  The result is the argument of the
call to `setActiveEventIndex`, `none` when the handler returns without one. -/
def handleScroll (eventsLength : Nat) (timelineRef : Option (List Rect))
    (host : Host) : Option Int :=
  match timelineRef with
  | none => none
  | some cards =>
    let viewportHeight := host.innerHeight
    let scrollTop := host.scrollY
    let documentHeight := host.scrollHeight
    if scrollTop ≤ viewportHeight * (1 / 10) then
      some 0
    else if scrollTop + viewportHeight ≥ documentHeight - viewportHeight * (1 / 10) then
      some ((eventsLength : Int) - 1)
    else
      let viewportMiddle := scrollTop + viewportHeight / 2
      let closestCard := (scanCards scrollTop viewportMiddle cards 0 (0, none)).1
      some (closestCard : Int)

/-- Errors a handler can raise. -/
inductive JSError where
  | TypeError
deriving DecidableEq

/-- A `scrollIntoView({behavior: 'smooth', block: 'center'})` issued on the
card of the given index. -/
structure ScrollCommand where
  card : Nat
  behavior : String
  block : String
deriving DecidableEq

/-- The helper `scrollToEvent(index)`: the scroll commands it issues, or the
error it raises.  Reading `getElementsByClassName` off a `null`
`timelineRef.current` is a `TypeError`. -/
def scrollToEvent (timelineRef : Option (List Rect)) (index : Nat) :
    Except JSError (List ScrollCommand) :=
  match timelineRef with
  | none => Except.error JSError.TypeError
  | some cards =>
    match cards[index]? with
    | some _ => Except.ok [⟨index, "smooth", "center"⟩]
    | none => Except.ok []

/-- The component's state: the two `useState` cells. -/
structure State where
  activeEventIndex : Int
  showMiniMap : Bool
deriving DecidableEq

/-- The initial state: `useState(0)` and `useState(true)`. -/
def initialState : State := ⟨0, true⟩

/-- What can happen to the mounted component: a scroll notification (or the
initial calculation) runs `handleScroll` against the current geometry, a
click on the button toggles the mini-map, a click on a mini-map entry or a
card calls `scrollToEvent`. -/
inductive Action where
  | scroll (timelineRef : Option (List Rect)) (host : Host)
  | toggleMiniMap
  | click (timelineRef : Option (List Rect)) (index : Nat)

/-- One transition of the component: the next state, and the scroll
commands issued or the error raised by the handler that ran. -/
def step (eventsLength : Nat) (s : State) :
    Action → State × Except JSError (List ScrollCommand)
  | Action.scroll timelineRef host =>
    match handleScroll eventsLength timelineRef host with
    | some i => ({ s with activeEventIndex := i }, Except.ok [])
    | none => (s, Except.ok [])
  | Action.toggleMiniMap => ({ s with showMiniMap := !s.showMiniMap }, Except.ok [])
  | Action.click timelineRef index => (s, scrollToEvent timelineRef index)

/-- The state after a sequence of actions. -/
def run (eventsLength : Nat) (s : State) (actions : List Action) : State :=
  actions.foldl (fun s a => (step eventsLength s a).1) s

/-- The JavaScript read `events[activeEventIndex]`: `undefined` (`none`)
outside the array. -/
def eventAt (events : List Event) (activeEventIndex : Int) : Option Event :=
  if 0 ≤ activeEventIndex then events[activeEventIndex.toNat]? else none

/-! ## The progress marker -/

/-- The percentage computed for the moving dot from the active event's date:
`(elapsedTime / totalTime) * 84 + 8`.  `none` is a result that is not a
finite number. -/
def markerPercent (tza : Int → Int) (d : StartDate) : Option ℚ :=
  let activeDate := Date tza d.year (d.month - 1) d.day
  let firstDate := Date tza 2022 10 1
  let lastDate := Date tza 2025 2 31
  let totalTime := dateSub lastDate firstDate
  let elapsedTime := dateSub activeDate firstDate
  match elapsedTime, totalTime with
  | some e, some t => if t = 0 then none else some ((e : ℚ) / (t : ℚ) * 84 + 8)
  | _, _ => none

/-- An axis label: its text and the time value of its `date`. -/
structure Marker where
  label : String
  date : Option Int
deriving DecidableEq

/-- The spread of a `Set`, `[...new Set(xs)]`: the distinct values in the
order of their first occurrence. -/
def newSet : List Int → List Int
  | [] => []
  | x :: xs => x :: (newSet xs).filter (fun y => y ≠ x)

/-- The test `hasFirstHalf` for a year. -/
def hasFirstHalf (events : List Event) (year : Int) : Bool :=
  events.any (fun event => event.start_date.year == year && decide (event.start_date.month ≤ 6))

/-- The test `hasSecondHalf` for a year. -/
def hasSecondHalf (events : List Event) (year : Int) : Bool :=
  events.any (fun event => event.start_date.year == year && decide (event.start_date.month > 6))

/-- The body of `years.slice(1).forEach(year => ...)`: the markers pushed
for one year. -/
def pushYear (tza : Int → Int) (events : List Event) (markers : List Marker)
    (year : Int) : List Marker :=
  let markers :=
    if hasFirstHalf events year || hasSecondHalf events year then
      markers ++ [⟨"Mid " ++ toString year, Date tza year 5 1⟩]
    else markers
  markers ++ [⟨"Late " ++ toString year, Date tza year 11 1⟩]

/-- The list `markers` built for the axis labels. -/
def seasonalMarkers (tza : Int → Int) (events : List Event) : List Marker :=
  let years := newSet (events.map (fun event => event.start_date.year))
  let markers : List Marker := [⟨"Late 2022", Date tza 2022 6 1⟩]
  let markers := (years.drop 1).foldl (pushYear tza events) markers
  markers ++ [⟨"Early 2025", Date tza 2025 2 1⟩]


/-! ## Notions used to state the properties -/

/-- Day number of the first day of the month with serial number
`n = 12 * year + monthIndex`. -/
def monthStart (n : Int) : Int := MakeDay (n / 12) (n % 12) 1

/-- The years for which every month start is a valid `Date`, whatever the
host's offset (of at most a day). -/
def yearInRange (y : Int) : Prop := -271820 ≤ y ∧ y ≤ 275759

instance (y : Int) : Decidable (yearInRange y) :=
  inferInstanceAs (Decidable (-271820 ≤ y ∧ y ≤ 275759))

/-- The order of the claim: `(year, month)`, lexicographically. -/
def ymLe (a b : Event) : Prop :=
  a.start_date.year < b.start_date.year ∨
    (a.start_date.year = b.start_date.year ∧ a.start_date.month ≤ b.start_date.month)

instance (a b : Event) : Decidable (ymLe a b) :=
  inferInstanceAs (Decidable (_ ∨ _))

/-- The order on `(Y, month)` where `Y` is the year as the `Date` constructor
reads it: `1900 + year` for a year in 0..99. -/
def fullYmLe (a b : Event) : Prop :=
  MakeFullYear a.start_date.year < MakeFullYear b.start_date.year ∨
    (MakeFullYear a.start_date.year = MakeFullYear b.start_date.year ∧
      a.start_date.month ≤ b.start_date.month)

instance (a b : Event) : Decidable (fullYmLe a b) :=
  inferInstanceAs (Decidable (_ ∨ _))

/-- An event the loader is specified for: month in 1..12, and a year for
which `Date` is valid. -/
def wellFormed (e : Event) : Prop :=
  1 ≤ e.start_date.month ∧ e.start_date.month ≤ 12 ∧ yearInRange e.start_date.year

instance (e : Event) : Decidable (wellFormed e) :=
  inferInstanceAs (Decidable (_ ∧ _ ∧ _))

/-- The event with its `day` replaced. -/
def setDay (g : Event → Int) (e : Event) : Event :=
  { e with start_date := { e.start_date with day := g e } }

/-- Serial number of the month the comparator's `Date` falls in. -/
def monthSerial (e : Event) : Int :=
  12 * MakeFullYear e.start_date.year + (e.start_date.month - 1)

/-- The order of the month serial numbers. -/
def serialLe (a b : Event) : Prop := monthSerial a ≤ monthSerial b

instance : DecidableRel serialLe :=
  fun a b => inferInstanceAs (Decidable (monthSerial a ≤ monthSerial b))

instance : IsTotal Event serialLe := ⟨fun a b => le_total (monthSerial a) (monthSerial b)⟩

instance : IsTrans Event serialLe := ⟨fun _ _ _ h1 h2 => le_trans h1 h2⟩


/-- A host in the UTC time zone. -/
def utc : Int → Int := fun _ => 0

/-- Three events out of order, two of them in the same month. -/
def sampleData : List Event :=
  [⟨⟨2023, 3, 14⟩, ⟨"GPT-4", ""⟩⟩, ⟨⟨2022, 11, 30⟩, ⟨"ChatGPT", ""⟩⟩,
    ⟨⟨2023, 3, 1⟩, ⟨"March", ""⟩⟩]

/-- Two events one year apart, the earlier one with a two-digit year. -/
def twoDigitData : List Event :=
  [⟨⟨99, 1, 1⟩, ⟨"year 99", ""⟩⟩, ⟨⟨100, 1, 1⟩, ⟨"year 100", ""⟩⟩]

/-- Three cards of height 100, their middles 350 apart, the second one in the
middle of a viewport of height 1000. -/
def sampleCards : List Rect := [⟨100, 100⟩, ⟨450, 100⟩, ⟨800, 100⟩]

/-- The action reads a rendered list with exactly one card per event (or no
list at all). -/
def oneCardPerEvent (eventsLength : Nat) : Action → Bool
  | Action.scroll (some cards) _ => decide (cards.length = eventsLength)
  | Action.click (some cards) _ => decide (cards.length = eventsLength)
  | _ => true

/-- A session: the initial calculation before the list is rendered, a scroll
to the middle, a toggle of the mini-map, a click on the last card and a scroll
to the bottom. -/
def sampleActions : List Action :=
  [Action.scroll none ⟨1000, 0, 0⟩, Action.scroll (some sampleCards) ⟨1000, 1000, 5000⟩,
    Action.toggleMiniMap, Action.click (some sampleCards) 2,
    Action.scroll (some sampleCards) ⟨1000, 4000, 5000⟩]

/-- Events of 2022 and of the second half of 2023 only. -/
def secondHalfData : List Event :=
  [⟨⟨2022, 11, 30⟩, ⟨"ChatGPT", ""⟩⟩, ⟨⟨2023, 8, 1⟩, ⟨"August", ""⟩⟩]

/-- Events of 2022 and of the first half of 2023 only. -/
def firstHalfData : List Event :=
  [⟨⟨2022, 11, 30⟩, ⟨"ChatGPT", ""⟩⟩, ⟨⟨2023, 3, 14⟩, ⟨"GPT-4", ""⟩⟩]

/-- Number of days of the month `mn` (0 = January). -/
def DaysInMonth (leap : Bool) (mn : Int) : Int :=
  if mn = 1 then (if leap then 29 else 28)
  else if mn = 3 ∨ mn = 5 ∨ mn = 8 ∨ mn = 10 then 30
  else 31

/-- A date of the calendar: month in 1..12 and a day of that month. -/
def calendarDate (d : StartDate) : Prop :=
  1 ≤ d.month ∧ d.month ≤ 12 ∧ 1 ≤ d.day ∧
    d.day ≤ DaysInMonth (InLeapYear d.year) (d.month - 1)

instance (d : StartDate) : Decidable (calendarDate d) :=
  inferInstanceAs (Decidable (_ ∧ _ ∧ _ ∧ _))

/-- The order of calendar dates: `(year, month, day)`, lexicographically. -/
def dateLe (a b : StartDate) : Prop :=
  a.year < b.year ∨
    (a.year = b.year ∧ (a.month < b.month ∨ (a.month = b.month ∧ a.day ≤ b.day)))

instance (a b : StartDate) : Decidable (dateLe a b) :=
  inferInstanceAs (Decidable (_ ∨ _))

/-! ## Calendar arithmetic -/

theorem DayFromYear_succ (y : Int) :
    DayFromYear (y + 1) = DayFromYear y + (if InLeapYear y then 366 else 365) := by
  have h4 : (y + 1 - 1969) / 4 = (y - 1969) / 4 + (if y % 4 = 0 then 1 else 0) := by
    split_ifs <;> omega
  have h100 : (y + 1 - 1901) / 100 = (y - 1901) / 100 + (if y % 100 = 0 then 1 else 0) := by
    split_ifs <;> omega
  have h400 : (y + 1 - 1601) / 400 = (y - 1601) / 400 + (if y % 400 = 0 then 1 else 0) := by
    split_ifs <;> omega
  have k1 : y % 100 = 0 → y % 4 = 0 := by omega
  have k2 : y % 400 = 0 → y % 100 = 0 := by omega
  unfold DayFromYear InLeapYear
  rw [h4, h100, h400]
  by_cases c4 : y % 4 = 0 <;> by_cases c100 : y % 100 = 0 <;> by_cases c400 : y % 400 = 0 <;>
    simp [c4, c100, c400] <;> omega

theorem MakeDay_of_monthIndex (y m d : Int) (h0 : 0 ≤ m) (h1 : m ≤ 11) :
    MakeDay y m d = DayFromYear y + DayWithinYear (InLeapYear y) m + d - 1 := by
  have e1 : m / 12 = 0 := by omega
  have e2 : m % 12 = m := by omega
  simp only [MakeDay, e1, e2, add_zero]

theorem DayWithinYear_zero (l : Bool) : DayWithinYear l 0 = 0 := by
  simp [DayWithinYear]

theorem DayWithinYear_last (l : Bool) :
    DayWithinYear l 11 = 334 + (if l then 1 else 0) := by
  simp [DayWithinYear]

theorem DayWithinYear_next (l : Bool) (m : Int) (h0 : 0 ≤ m) (h1 : m ≤ 10) :
    DayWithinYear l (m + 1) = DayWithinYear l m + DaysInMonth l m := by
  interval_cases m <;> cases l <;> simp [DayWithinYear, DaysInMonth]

theorem DaysInMonth_bounds (l : Bool) (m : Int) :
    28 ≤ DaysInMonth l m ∧ DaysInMonth l m ≤ 31 := by
  unfold DaysInMonth
  cases l <;> split_ifs <;> simp

theorem DayWithinYear_succ (l : Bool) (m : Int) (h0 : 0 ≤ m) (h1 : m ≤ 10) :
    DayWithinYear l m + 28 ≤ DayWithinYear l (m + 1) := by
  rw [DayWithinYear_next l m h0 h1]
  have := (DaysInMonth_bounds l m).1
  linarith

theorem monthStart_eq (y m : Int) (h0 : 0 ≤ m) (h1 : m ≤ 11) :
    monthStart (12 * y + m) = DayFromYear y + DayWithinYear (InLeapYear y) m := by
  unfold monthStart
  have e1 : (12 * y + m) / 12 = y := by omega
  have e2 : (12 * y + m) % 12 = m := by omega
  rw [e1, e2, MakeDay_of_monthIndex y m 1 h0 h1]
  ring

theorem MakeDay_eq_monthStart (y m : Int) (h0 : 0 ≤ m) (h1 : m ≤ 11) :
    MakeDay y m 1 = monthStart (12 * y + m) := by
  rw [monthStart_eq y m h0 h1, MakeDay_of_monthIndex y m 1 h0 h1]
  ring

theorem monthStart_succ (n : Int) : monthStart n + 28 ≤ monthStart (n + 1) := by
  obtain ⟨y, m, h0, h1, rfl⟩ : ∃ y m : Int, 0 ≤ m ∧ m ≤ 11 ∧ n = 12 * y + m :=
    ⟨n / 12, n % 12, by omega, by omega, by omega⟩
  rw [monthStart_eq y m h0 h1]
  by_cases h11 : m = 11
  · subst h11
    have e : 12 * y + 11 + 1 = 12 * (y + 1) + 0 := by ring
    rw [e, monthStart_eq (y + 1) 0 (le_refl 0) (by norm_num), DayFromYear_succ,
      DayWithinYear_zero, DayWithinYear_last]
    cases InLeapYear y <;> simp <;> linarith
  · have e : 12 * y + m + 1 = 12 * y + (m + 1) := by ring
    rw [e, monthStart_eq y (m + 1) (by omega) (by omega)]
    have := DayWithinYear_succ (InLeapYear y) m h0 (by omega)
    linarith

theorem monthStart_next (y m : Int) (h0 : 0 ≤ m) (h1 : m ≤ 11) :
    monthStart (12 * y + m + 1)
      = monthStart (12 * y + m) + DaysInMonth (InLeapYear y) m := by
  rw [monthStart_eq y m h0 h1]
  by_cases h11 : m = 11
  · subst h11
    have e : 12 * y + 11 + 1 = 12 * (y + 1) + 0 := by ring
    rw [e, monthStart_eq (y + 1) 0 (le_refl 0) (by norm_num), DayFromYear_succ,
      DayWithinYear_zero, DayWithinYear_last]
    cases InLeapYear y <;> simp [DaysInMonth] <;> ring
  · have e : 12 * y + m + 1 = 12 * y + (m + 1) := by ring
    rw [e, monthStart_eq y (m + 1) (by omega) (by omega),
      DayWithinYear_next (InLeapYear y) m h0 (by omega)]
    ring

theorem monthStart_add (n : Int) (k : Nat) :
    monthStart n + 28 * ((k : Int) + 1) ≤ monthStart (n + k + 1) := by
  induction k with
  | zero => simpa using monthStart_succ n
  | succ k ih =>
    have h := monthStart_succ (n + k + 1)
    have e : n + ((k + 1 : Nat) : Int) + 1 = n + k + 1 + 1 := by push_cast; ring
    rw [e]
    push_cast
    linarith

theorem monthStart_lt {n n' : Int} (h : n < n') : monthStart n + 28 ≤ monthStart n' := by
  obtain ⟨k, hk⟩ : ∃ k : Nat, n' = n + k + 1 := ⟨(n' - n - 1).toNat, by omega⟩
  have := monthStart_add n k
  rw [hk]
  have hk0 : (0 : Int) ≤ k := Int.ofNat_nonneg k
  linarith

theorem monthStart_mono {n n' : Int} (h : n ≤ n') : monthStart n ≤ monthStart n' := by
  rcases eq_or_lt_of_le h with h | h
  · rw [h]
  · have := monthStart_lt h
    linarith


theorem MakeFullYear_inRange {y : Int} (h : yearInRange y) :
    yearInRange (MakeFullYear y) := by
  unfold MakeFullYear yearInRange at *
  split_ifs <;> omega

theorem monthStart_min : monthStart (12 * (-271820) + 0) = -99999744 := by
  rw [monthStart_eq _ _ (le_refl 0) (by norm_num)]
  decide

theorem monthStart_max : monthStart (12 * 275759 + 11) = 99999713 := by
  rw [monthStart_eq _ _ (by norm_num) (le_refl 11)]
  decide

theorem monthStart_bounds (y m : Int) (hy : yearInRange y) (h0 : 0 ≤ m) (h1 : m ≤ 11) :
    -99999744 ≤ monthStart (12 * y + m) ∧ monthStart (12 * y + m) ≤ 99999713 := by
  obtain ⟨hy0, hy1⟩ := hy
  constructor
  · rw [← monthStart_min]
    exact monthStart_mono (by omega)
  · rw [← monthStart_max]
    exact monthStart_mono (by omega)

/-- The time value of a month start is valid and is the local midnight moved
by the host's offset. -/
theorem Date_monthStart (tza : Int → Int) (htz : ∀ t, |tza t| ≤ msPerDay)
    (y m : Int) (hy : yearInRange y) (h0 : 0 ≤ m) (h1 : m ≤ 11) :
    Date tza y m 1 = some (monthStart (12 * MakeFullYear y + m) * msPerDay
      - tza (monthStart (12 * MakeFullYear y + m) * msPerDay)) := by
  have hb := monthStart_bounds (MakeFullYear y) m (MakeFullYear_inRange hy) h0 h1
  unfold Date TimeClip
  rw [MakeDay_eq_monthStart _ _ h0 h1]
  have ht := abs_le.mp (htz (monthStart (12 * MakeFullYear y + m) * msPerDay))
  simp only [msPerDay] at *
  rw [if_neg]
  rw [not_lt, abs_le]
  constructor <;> omega


/-! ## Stable insertion: general facts -/

theorem orderedInsert_congr {α : Type} (r s : α → α → Prop) [DecidableRel r]
    [DecidableRel s] (a : α) :
    ∀ l : List α, (∀ b ∈ l, r a b ↔ s a b) →
      List.orderedInsert r a l = List.orderedInsert s a l
  | [], _ => rfl
  | b :: l, h => by
    have hb : r a b ↔ s a b := h b (List.mem_cons_self b l)
    have ih := orderedInsert_congr r s a l (fun c hc => h c (List.mem_cons_of_mem b hc))
    by_cases hr : r a b
    · simp [List.orderedInsert, hr, hb.mp hr]
    · have hs : ¬ s a b := fun hs => hr (hb.mpr hs)
      simp [List.orderedInsert, hr, hs, ih]

theorem insertionSort_congr {α : Type} (r s : α → α → Prop) [DecidableRel r]
    [DecidableRel s] :
    ∀ l : List α, (∀ a ∈ l, ∀ b ∈ l, r a b ↔ s a b) →
      List.insertionSort r l = List.insertionSort s l
  | [], _ => rfl
  | a :: l, h => by
    have ih := insertionSort_congr r s l
      (fun x hx y hy => h x (List.mem_cons_of_mem a hx) y (List.mem_cons_of_mem a hy))
    simp only [List.insertionSort]
    rw [ih]
    apply orderedInsert_congr
    intro b hb
    exact h a (List.mem_cons_self a l) b
      (List.mem_cons_of_mem a ((List.mem_insertionSort s).mp hb))

theorem filter_orderedInsert_neg {α : Type} (r : α → α → Prop) [DecidableRel r]
    (p : α → Bool) (a : α) (ha : p a = false) :
    ∀ l : List α, (List.orderedInsert r a l).filter p = l.filter p
  | [] => by simp [ha]
  | b :: l => by
    have ih := filter_orderedInsert_neg r p a ha l
    by_cases hr : r a b
    · simp [List.orderedInsert, hr, List.filter_cons, ha]
    · simp [List.orderedInsert, hr, List.filter_cons, ih]

theorem filter_orderedInsert_pos {α : Type} (r : α → α → Prop) [DecidableRel r]
    (p : α → Bool) (a : α) (ha : p a = true) :
    ∀ l : List α, (∀ b ∈ l, p b = true → r a b) →
      (List.orderedInsert r a l).filter p = a :: l.filter p
  | [], _ => by simp [ha]
  | b :: l, h => by
    have ih := filter_orderedInsert_pos r p a ha l
      (fun c hc => h c (List.mem_cons_of_mem b hc))
    by_cases hr : r a b
    · simp [List.orderedInsert, hr, List.filter_cons, ha]
    · have hb : p b = false := by
        cases hpb : p b
        · rfl
        · exact absurd (h b (List.mem_cons_self b l) hpb) hr
      simp [List.orderedInsert, hr, List.filter_cons, ih, hb]

/-- Stability of the insertion sort: a class of elements that may stay in
their order (`r a b` for any two of them) comes out in its original order. -/
theorem filter_insertionSort {α : Type} (r : α → α → Prop) [DecidableRel r]
    (p : α → Bool) :
    ∀ l : List α, (∀ a ∈ l, ∀ b ∈ l, p a = true → p b = true → r a b) →
      (List.insertionSort r l).filter p = l.filter p
  | [], _ => rfl
  | a :: l, h => by
    have ih := filter_insertionSort r p l
      (fun x hx y hy => h x (List.mem_cons_of_mem a hx) y (List.mem_cons_of_mem a hy))
    simp only [List.insertionSort]
    cases ha : p a
    · rw [filter_orderedInsert_neg r p a ha, ih]
      simp [List.filter_cons, ha]
    · rw [filter_orderedInsert_pos r p a ha, ih]
      · simp [List.filter_cons, ha]
      · intro b hb hpb
        exact h a (List.mem_cons_self a l) b
          (List.mem_cons_of_mem a ((List.mem_insertionSort r).mp hb)) ha hpb

theorem serialLe_iff_fullYmLe (a b : Event) (ha : wellFormed a) (hb : wellFormed b) :
    serialLe a b ↔ fullYmLe a b := by
  unfold serialLe monthSerial fullYmLe
  obtain ⟨a1, a2, _⟩ := ha
  obtain ⟨b1, b2, _⟩ := hb
  constructor
  · intro h; omega
  · intro h; omega

theorem comparator_eq (tza : Int → Int) (htz : ∀ t, |tza t| ≤ msPerDay)
    (a b : Event) (ha : wellFormed a) (hb : wellFormed b) :
    comparator tza a b =
      some ((monthStart (monthSerial a) * msPerDay - tza (monthStart (monthSerial a) * msPerDay))
        - (monthStart (monthSerial b) * msPerDay
          - tza (monthStart (monthSerial b) * msPerDay))) := by
  obtain ⟨a1, a2, a3⟩ := ha
  obtain ⟨b1, b2, b3⟩ := hb
  unfold comparator monthSerial
  rw [Date_monthStart tza htz _ _ a3 (by omega) (by omega),
    Date_monthStart tza htz _ _ b3 (by omega) (by omega)]
  rfl

theorem sortRel_iff_serialLe (tza : Int → Int) (htz : ∀ t, |tza t| ≤ msPerDay)
    (a b : Event) (ha : wellFormed a) (hb : wellFormed b) :
    sortRel (comparator tza) a b ↔ serialLe a b := by
  unfold sortRel SortCompare serialLe
  rw [comparator_eq tza htz a b ha hb]
  have ta := abs_le.mp (htz (monthStart (monthSerial a) * msPerDay))
  have tb := abs_le.mp (htz (monthStart (monthSerial b) * msPerDay))
  simp only [msPerDay] at *
  constructor
  · intro h
    by_contra hlt
    have := monthStart_lt (not_le.mp hlt)
    omega
  · intro h
    rcases eq_or_lt_of_le h with he | hl
    · rw [he]; omega
    · have := monthStart_lt hl
      omega

theorem sortRel_of_same_month (tza : Int → Int) (a b : Event)
    (hy : a.start_date.year = b.start_date.year)
    (hm : a.start_date.month = b.start_date.month) :
    sortRel (comparator tza) a b := by
  unfold sortRel SortCompare comparator
  rw [hy, hm]
  cases Date tza b.start_date.year (b.start_date.month - 1) 1 <;> simp [dateSub]

theorem events_perm (tza : Int → Int) (data : List Event) :
    List.Perm (events tza data) data :=
  List.perm_insertionSort _ data

theorem events_eq_serial (tza : Int → Int) (htz : ∀ t, |tza t| ≤ msPerDay)
    (data : List Event) (hwf : ∀ e ∈ data, wellFormed e) :
    events tza data = List.insertionSort serialLe data :=
  insertionSort_congr _ _ data
    (fun a ha b hb => sortRel_iff_serialLe tza htz a b (hwf a ha) (hwf b hb))

theorem events_sorted_full (tza : Int → Int) (htz : ∀ t, |tza t| ≤ msPerDay)
    (data : List Event) (hwf : ∀ e ∈ data, wellFormed e) :
    List.Sorted fullYmLe (events tza data) := by
  have hs : List.Sorted serialLe (events tza data) := by
    rw [events_eq_serial tza htz data hwf]
    exact List.sorted_insertionSort serialLe data
  refine List.Pairwise.imp_of_mem ?_ hs
  intro a b ha hb hab
  have ha' := hwf a ((events_perm tza data).mem_iff.mp ha)
  have hb' := hwf b ((events_perm tza data).mem_iff.mp hb)
  exact (serialLe_iff_fullYmLe a b ha' hb').mp hab

theorem events_setDay (tza : Int → Int) (g : Event → Int) (data : List Event) :
    events tza (data.map (setDay g)) = (events tza data).map (setDay g) :=
  (List.map_insertionSort (sortRel (comparator tza)) (sortRel (comparator tza))
    (setDay g) data (fun _ _ _ _ => Iff.rfl)).symm

/-! ## The nearest-card scan -/

theorem scanCards_spec (st vm : ℚ) :
    ∀ (cards : List Rect) (index closest : Nat) (m : ℚ),
      (scanCards st vm cards index (closest, some m) = (closest, some m) ∧
          ∀ j (hj : j < cards.length), m ≤ cardDistance st vm cards[j]) ∨
      (∃ i, ∃ hi : i < cards.length,
          scanCards st vm cards index (closest, some m)
            = (index + i, some (cardDistance st vm cards[i])) ∧
          cardDistance st vm cards[i] < m ∧
          (∀ j (hj : j < cards.length),
            cardDistance st vm cards[i] ≤ cardDistance st vm cards[j]) ∧
          (∀ j (hj : j < i), cardDistance st vm cards[i] < cardDistance st vm cards[j]))
  | [], index, closest, m => Or.inl ⟨rfl, fun j hj => absurd hj (Nat.not_lt_zero j)⟩
  | c :: rest, index, closest, m => by
    by_cases hlt : cardDistance st vm c < m
    · have hstep : scanCards st vm (c :: rest) index (closest, some m)
          = scanCards st vm rest (index + 1) (index, some (cardDistance st vm c)) := by
        simp [scanCards, ltMin, hlt]
      rw [hstep]
      rcases scanCards_spec st vm rest (index + 1) index (cardDistance st vm c) with
        ⟨heq, hall⟩ | ⟨i, hi, heq, hlt', hmin, hfirst⟩
      · refine Or.inr ⟨0, Nat.succ_pos _, ?_, ?_, ?_, ?_⟩
        · simpa using heq
        · simpa using hlt
        · intro j hj
          cases j with
          | zero => simp
          | succ j => simpa using hall j (by simpa using hj)
        · intro j hj
          exact absurd hj (Nat.not_lt_zero j)
      · refine Or.inr ⟨i + 1, Nat.succ_lt_succ hi, ?_, ?_, ?_, ?_⟩
        · simp only [List.getElem_cons_succ]
          rw [heq]
          simp [Nat.add_assoc, Nat.add_comm 1 i]
        · simp only [List.getElem_cons_succ]
          exact lt_trans hlt' hlt
        · intro j hj
          cases j with
          | zero => simpa using le_of_lt hlt'
          | succ j => simpa using hmin j (by simpa using hj)
        · intro j hj
          cases j with
          | zero => simpa using hlt'
          | succ j => simpa using hfirst j (by omega)
    · have hstep : scanCards st vm (c :: rest) index (closest, some m)
          = scanCards st vm rest (index + 1) (closest, some m) := by
        simp [scanCards, ltMin, hlt]
      rw [hstep]
      have hle : m ≤ cardDistance st vm c := not_lt.mp hlt
      rcases scanCards_spec st vm rest (index + 1) closest m with
        ⟨heq, hall⟩ | ⟨i, hi, heq, hlt', hmin, hfirst⟩
      · refine Or.inl ⟨heq, ?_⟩
        intro j hj
        cases j with
        | zero => simpa using hle
        | succ j => simpa using hall j (by simpa using hj)
      · refine Or.inr ⟨i + 1, Nat.succ_lt_succ hi, ?_, ?_, ?_, ?_⟩
        · simp only [List.getElem_cons_succ]
          rw [heq]
          simp [Nat.add_assoc, Nat.add_comm 1 i]
        · simpa using hlt'
        · intro j hj
          cases j with
          | zero => simpa using le_of_lt (lt_of_lt_of_le hlt' hle)
          | succ j => simpa using hmin j (by simpa using hj)
        · intro j hj
          cases j with
          | zero => simpa using lt_of_lt_of_le hlt' hle
          | succ j => simpa using hfirst j (by omega)

/-- The scan, from its initial state, stops on the first card at the least
distance. -/
theorem scanCards_init (st vm : ℚ) (cards : List Rect) (hne : cards ≠ []) :
    ∃ i, ∃ hi : i < cards.length,
      (scanCards st vm cards 0 (0, none)).1 = i ∧
      (∀ j (hj : j < cards.length),
        cardDistance st vm cards[i] ≤ cardDistance st vm cards[j]) ∧
      (∀ j (hj : j < i), cardDistance st vm cards[i] < cardDistance st vm cards[j]) := by
  cases cards with
  | nil => exact absurd rfl hne
  | cons c rest =>
    have hstep : scanCards st vm (c :: rest) 0 (0, none)
        = scanCards st vm rest 1 (0, some (cardDistance st vm c)) := by
      simp [scanCards, ltMin]
    rw [hstep]
    rcases scanCards_spec st vm rest 1 0 (cardDistance st vm c) with
      ⟨heq, hall⟩ | ⟨i, hi, heq, hlt', hmin, hfirst⟩
    · refine ⟨0, Nat.succ_pos _, ?_, ?_, ?_⟩
      · rw [heq]
      · intro j hj
        cases j with
        | zero => simp
        | succ j => simpa using hall j (by simpa using hj)
      · intro j hj
        exact absurd hj (Nat.not_lt_zero j)
    · refine ⟨i + 1, Nat.succ_lt_succ hi, ?_, ?_, ?_⟩
      · rw [heq]
        simp [Nat.add_comm 1 i]
      · intro j hj
        cases j with
        | zero => simpa using le_of_lt hlt'
        | succ j => simpa using hmin j (by simpa using hj)
      · intro j hj
        cases j with
        | zero => simpa using hlt'
        | succ j => simpa using hfirst j (by omega)

/-- The index the scan stops on is an index of a card, or 0. -/
theorem scanCards_lt (st vm : ℚ) (cards : List Rect) (hne : cards ≠ []) :
    (scanCards st vm cards 0 (0, none)).1 < cards.length := by
  obtain ⟨i, hi, heq, _, _⟩ := scanCards_init st vm cards hne
  rw [heq]
  exact hi

/-- C1, as the code has it.  On a host whose offset from UTC never exceeds a
day, for events with month in 1..12 and a year in -271820..275759 (where every
`Date` is valid), `events` is a permutation of the data; it is non-decreasing
in `(Y, month)` where `Y` is the year as the `Date` constructor reads it
(`1900 + year` for a year in 0..99), hence in `(year, month)` when no year is
in 0..99; events of the same `(year, month)` keep their original order; and the
`day` field has no influence on the order. -/
theorem events_sorted_stable (tza : Int → Int) (htz : ∀ t, |tza t| ≤ msPerDay)
    (data : List Event) (hwf : ∀ e ∈ data, wellFormed e) :
    List.Perm (events tza data) data ∧
    List.Sorted fullYmLe (events tza data) ∧
    ((∀ e ∈ data, ¬ (0 ≤ e.start_date.year ∧ e.start_date.year ≤ 99)) →
      List.Sorted ymLe (events tza data)) ∧
    (∀ y m : Int,
      (events tza data).filter
          (fun e => decide (e.start_date.year = y ∧ e.start_date.month = m))
        = data.filter (fun e => decide (e.start_date.year = y ∧ e.start_date.month = m))) ∧
    (∀ g : Event → Int, events tza (data.map (setDay g)) = (events tza data).map (setDay g)) := by
  refine ⟨events_perm tza data, events_sorted_full tza htz data hwf, ?_, ?_, ?_⟩
  · intro h99
    refine List.Pairwise.imp_of_mem ?_ (events_sorted_full tza htz data hwf)
    intro a b ha hb hab
    have ha' := h99 a ((events_perm tza data).mem_iff.mp ha)
    have hb' := h99 b ((events_perm tza data).mem_iff.mp hb)
    unfold fullYmLe MakeFullYear at hab
    rw [if_neg ha', if_neg hb'] at hab
    exact hab
  · intro y m
    apply filter_insertionSort
    intro a _ b _ ha hb
    have ha' := of_decide_eq_true ha
    have hb' := of_decide_eq_true hb
    exact sortRel_of_same_month tza a b (ha'.1.trans hb'.1.symm) (ha'.2.trans hb'.2.symm)
  · intro g
    exact events_setDay tza g data

/-- C1 at a concrete input: three events, two of them in March 2023. -/
theorem events_sorted_stable_witness :
    (∀ t, |utc t| ≤ msPerDay) ∧ (∀ e ∈ sampleData, wellFormed e) ∧
    List.Perm (events utc sampleData) sampleData ∧
    List.Sorted fullYmLe (events utc sampleData) ∧
    ((∀ e ∈ sampleData, ¬ (0 ≤ e.start_date.year ∧ e.start_date.year ≤ 99)) →
      List.Sorted ymLe (events utc sampleData)) ∧
    (∀ y m : Int,
      (events utc sampleData).filter
          (fun e => decide (e.start_date.year = y ∧ e.start_date.month = m))
        = sampleData.filter
          (fun e => decide (e.start_date.year = y ∧ e.start_date.month = m))) ∧
    (∀ g : Event → Int,
      events utc (sampleData.map (setDay g)) = (events utc sampleData).map (setDay g)) :=
  have htz : ∀ t, |utc t| ≤ msPerDay := by intro t; simp [utc, msPerDay]
  have hwf : ∀ e ∈ sampleData, wellFormed e := by decide
  ⟨htz, hwf, events_sorted_stable utc htz sampleData hwf⟩

/-- C1 as stated fails: with years 99 and 100 the loader puts the year 100
first, because `Date` reads the year 99 as 1999. -/
theorem events_two_digit_year_not_sorted :
    (∀ e ∈ twoDigitData, 1 ≤ e.start_date.month ∧ e.start_date.month ≤ 12) ∧
    (events utc twoDigitData).map (fun e => e.start_date.year) = [100, 99] ∧
    ¬ List.Sorted ymLe (events utc twoDigitData) := by
  decide

/-! ## The scroll handler -/

/-- C3, as the code has it.  Scrolled to the bottom
(`scrollOffset = documentHeight - viewportHeight`) with a viewport height that
is not negative, and past the top clamp (`scrollOffset > 0.1 * viewportHeight`),
`handleScroll` sets the active index to `events.length - 1`. -/
theorem handleScroll_bottom (eventsLength : Nat) (cards : List Rect) (host : Host)
    (hvh : 0 ≤ host.innerHeight)
    (htop : host.scrollY > host.innerHeight * (1 / 10))
    (hbottom : host.scrollY = host.scrollHeight - host.innerHeight) :
    handleScroll eventsLength (some cards) host = some ((eventsLength : Int) - 1) := by
  unfold handleScroll
  simp only []
  rw [if_neg (not_le.mpr htop), if_pos]
  rw [hbottom]
  linarith

/-- C3 at a concrete input: a document of height 5000 scrolled to its end. -/
theorem handleScroll_bottom_witness :
    ((0 : ℚ) ≤ 1000) ∧ ((4000 : ℚ) > 1000 * (1 / 10)) ∧ ((4000 : ℚ) = 5000 - 1000) ∧
    handleScroll 3 (some sampleCards) ⟨1000, 4000, 5000⟩ = some ((3 : Nat) - 1 : Int) :=
  have hvh : ((0 : ℚ) ≤ 1000) := by norm_num
  have htop : ((4000 : ℚ) > 1000 * (1 / 10)) := by norm_num
  have hbottom : ((4000 : ℚ) = 5000 - 1000) := by norm_num
  ⟨hvh, htop, hbottom, handleScroll_bottom 3 sampleCards ⟨1000, 4000, 5000⟩ hvh htop hbottom⟩

/-- C3 as stated fails: a document that fits the viewport is scrolled to the
bottom at offset 0, and the top clamp sets the index to 0, not to 2. -/
theorem handleScroll_bottom_at_top :
    ((0 : ℚ) = 1000 - 1000) ∧
    handleScroll 3 (some sampleCards) ⟨1000, 0, 1000⟩ = some 0 ∧
    handleScroll 3 (some sampleCards) ⟨1000, 0, 1000⟩ ≠ some ((3 : Nat) - 1 : Int) := by
  have h : handleScroll 3 (some sampleCards) ⟨1000, 0, 1000⟩ = some 0 := by
    norm_num [handleScroll]
  refine ⟨by norm_num, h, ?_⟩
  rw [h]
  decide

/-- C5.  With a viewport height that is not negative, a scroll offset of at
most `0.1 * viewportHeight` (in particular 0) makes `handleScroll` set the
active index to 0, whatever the cards, the document height and the number of
events are: the bottom clamp is not consulted. -/
theorem handleScroll_top (eventsLength : Nat) (cards : List Rect) (host : Host)
    (hvh : 0 ≤ host.innerHeight) :
    (host.scrollY ≤ host.innerHeight * (1 / 10) →
      handleScroll eventsLength (some cards) host = some 0) ∧
    (host.scrollY = 0 → handleScroll eventsLength (some cards) host = some 0) := by
  have key : host.scrollY ≤ host.innerHeight * (1 / 10) →
      handleScroll eventsLength (some cards) host = some 0 := by
    intro h
    unfold handleScroll
    simp only []
    rw [if_pos h]
  refine ⟨key, fun h0 => key ?_⟩
  rw [h0]
  linarith

/-- C5 at a concrete input: a document that fits the viewport, where the
bottom-clamp condition holds as well. -/
theorem handleScroll_top_witness :
    ((0 : ℚ) ≤ 1000) ∧ ((0 : ℚ) + 1000 ≥ 1000 - 1000 * (1 / 10)) ∧
    (((0 : ℚ) ≤ 1000 * (1 / 10) →
      handleScroll 3 (some sampleCards) ⟨1000, 0, 1000⟩ = some 0) ∧
    ((0 : ℚ) = 0 → handleScroll 3 (some sampleCards) ⟨1000, 0, 1000⟩ = some 0)) :=
  have hvh : ((0 : ℚ) ≤ 1000) := by norm_num
  ⟨hvh, by norm_num, handleScroll_top 3 sampleCards ⟨1000, 0, 1000⟩ hvh⟩

/-! ## A missing list -/

theorem handleScroll_range (eventsLength : Nat) (hpos : 0 < eventsLength)
    (cards : List Rect) (host : Host) (hlen : cards.length = eventsLength) (i : Int)
    (hi : handleScroll eventsLength (some cards) host = some i) :
    0 ≤ i ∧ i ≤ (eventsLength : Int) - 1 := by
  have hne : cards ≠ [] := by
    intro h0
    rw [h0] at hlen
    simp at hlen
    omega
  have hscan := scanCards_lt host.scrollY (host.scrollY + host.innerHeight / 2) cards hne
  unfold handleScroll at hi
  simp only [] at hi
  split_ifs at hi <;> simp only [Option.some.injEq] at hi <;> omega

theorem step_range (eventsLength : Nat) (hpos : 0 < eventsLength) (s : State) (a : Action)
    (ha : oneCardPerEvent eventsLength a = true)
    (hs : 0 ≤ s.activeEventIndex ∧ s.activeEventIndex ≤ (eventsLength : Int) - 1) :
    0 ≤ (step eventsLength s a).1.activeEventIndex ∧
      (step eventsLength s a).1.activeEventIndex ≤ (eventsLength : Int) - 1 := by
  cases a with
  | scroll timelineRef host =>
    cases timelineRef with
    | none => exact hs
    | some cards =>
      have hlen : cards.length = eventsLength := of_decide_eq_true ha
      cases hh : handleScroll eventsLength (some cards) host with
      | none =>
        simp only [step, hh]
        exact hs
      | some i =>
        simp only [step, hh]
        exact handleScroll_range eventsLength hpos cards host hlen i hh
  | toggleMiniMap => exact hs
  | click timelineRef index => exact hs

theorem run_range (eventsLength : Nat) (hpos : 0 < eventsLength) (actions : List Action) :
    ∀ s : State, (∀ a ∈ actions, oneCardPerEvent eventsLength a = true) →
      (0 ≤ s.activeEventIndex ∧ s.activeEventIndex ≤ (eventsLength : Int) - 1) →
      0 ≤ (run eventsLength s actions).activeEventIndex ∧
        (run eventsLength s actions).activeEventIndex ≤ (eventsLength : Int) - 1 := by
  induction actions with
  | nil => intro s _ hs; exact hs
  | cons a rest ih =>
    intro s hall hs
    have h1 := step_range eventsLength hpos s a (hall a (List.mem_cons_self a rest)) hs
    exact ih (step eventsLength s a).1 (fun b hb => hall b (List.mem_cons_of_mem a hb)) h1

theorem eventAt_isSome (evs : List Event) (i : Int) (h0 : 0 ≤ i)
    (h1 : i ≤ (evs.length : Int) - 1) : (eventAt evs i).isSome = true := by
  unfold eventAt
  rw [if_pos h0]
  have hlt : i.toNat < evs.length := by omega
  simp [List.getElem?_eq_getElem hlt]

/-- C9.  For a non-empty event list rendered with one card per event, the
active index is in `[0, events.length - 1]` in the initial state and after
every sequence of operations, so `events[activeEventIndex]` exists; every
`handleScroll` recomputation yields an index in that range; toggling the
mini-map and `scrollToEvent` leave the active index unchanged. -/
theorem activeEventIndex_in_range (evs : List Event) (hne : evs ≠ []) :
    (0 ≤ initialState.activeEventIndex ∧
      initialState.activeEventIndex ≤ (evs.length : Int) - 1) ∧
    (∀ (cards : List Rect) (host : Host) (i : Int), cards.length = evs.length →
      handleScroll evs.length (some cards) host = some i →
      0 ≤ i ∧ i ≤ (evs.length : Int) - 1) ∧
    (∀ s : State,
      (step evs.length s Action.toggleMiniMap).1.activeEventIndex = s.activeEventIndex) ∧
    (∀ (s : State) (timelineRef : Option (List Rect)) (index : Nat),
      (step evs.length s (Action.click timelineRef index)).1.activeEventIndex
        = s.activeEventIndex) ∧
    (∀ actions : List Action, (∀ a ∈ actions, oneCardPerEvent evs.length a = true) →
      0 ≤ (run evs.length initialState actions).activeEventIndex ∧
      (run evs.length initialState actions).activeEventIndex ≤ (evs.length : Int) - 1 ∧
      (eventAt evs (run evs.length initialState actions).activeEventIndex).isSome = true) := by
  have hpos : 0 < evs.length := List.length_pos.mpr hne
  have hinit : 0 ≤ initialState.activeEventIndex ∧
      initialState.activeEventIndex ≤ (evs.length : Int) - 1 := by
    simp only [initialState]
    omega
  refine ⟨hinit, ?_, fun _ => rfl, fun _ _ _ => rfl, ?_⟩
  · intro cards host i hlen hi
    exact handleScroll_range evs.length hpos cards host hlen i hi
  · intro actions hall
    have h := run_range evs.length hpos actions initialState hall hinit
    exact ⟨h.1, h.2, eventAt_isSome evs _ h.1 h.2⟩

/-- C9 at a concrete input: three events, and a session that scrolls, toggles
and clicks. -/
theorem activeEventIndex_in_range_witness :
    sampleData ≠ [] ∧ (∀ a ∈ sampleActions, oneCardPerEvent sampleData.length a = true) ∧
    0 ≤ (run sampleData.length initialState sampleActions).activeEventIndex ∧
    (run sampleData.length initialState sampleActions).activeEventIndex
      ≤ (sampleData.length : Int) - 1 ∧
    (eventAt sampleData
      (run sampleData.length initialState sampleActions).activeEventIndex).isSome = true :=
  have hne : sampleData ≠ [] := by decide
  have hall : ∀ a ∈ sampleActions, oneCardPerEvent sampleData.length a = true := by decide
  ⟨hne, hall, (activeEventIndex_in_range sampleData hne).2.2.2.2 sampleActions hall⟩

/-! ## The progress marker -/

theorem Date_of_day_bound (tza : Int → Int) (htz : ∀ t, |tza t| ≤ msPerDay)
    (y m d : Int) (hb : |MakeDay (MakeFullYear y) m d| ≤ 99999999) :
    Date tza y m d = some (MakeDay (MakeFullYear y) m d * msPerDay
      - tza (MakeDay (MakeFullYear y) m d * msPerDay)) := by
  unfold Date TimeClip
  have ht := abs_le.mp (htz (MakeDay (MakeFullYear y) m d * msPerDay))
  have hb' := abs_le.mp hb
  simp only [msPerDay] at *
  rw [if_neg]
  rw [not_lt, abs_le]
  constructor <;> omega

theorem firstDate_eq (tza : Int → Int) (htz : ∀ t, |tza t| ≤ msPerDay) :
    Date tza 2022 10 1 = some (1667260800000 - tza 1667260800000) :=
  Date_of_day_bound tza htz 2022 10 1 (by decide)

theorem lastDate_eq (tza : Int → Int) (htz : ∀ t, |tza t| ≤ msPerDay) :
    Date tza 2025 2 31 = some (1743379200000 - tza 1743379200000) :=
  Date_of_day_bound tza htz 2025 2 31 (by decide)

theorem firstDate_lt_lastDate (tza : Int → Int) (htz : ∀ t, |tza t| ≤ msPerDay) :
    1667260800000 - tza 1667260800000 < 1743379200000 - tza 1743379200000 := by
  have h1 := abs_le.mp (htz 1667260800000)
  have h2 := abs_le.mp (htz 1743379200000)
  simp only [msPerDay] at *
  omega

theorem markerPercent_some (tza : Int → Int) (d : StartDate) (a f l : Int)
    (ha : Date tza d.year (d.month - 1) d.day = some a)
    (hf : Date tza 2022 10 1 = some f) (hl : Date tza 2025 2 31 = some l) (hfl : f < l) :
    markerPercent tza d = some (((a - f : Int) : ℚ) / ((l - f : Int) : ℚ) * 84 + 8) := by
  have hne : l - f ≠ 0 := by omega
  unfold markerPercent
  simp only []
  rw [ha, hf, hl]
  simp only [dateSub]
  rw [if_neg hne]

theorem markerPercent_none (tza : Int → Int) (d : StartDate)
    (ha : Date tza d.year (d.month - 1) d.day = none) : markerPercent tza d = none := by
  unfold markerPercent
  simp only []
  rw [ha]
  cases Date tza 2022 10 1 <;> cases Date tza 2025 2 31 <;> rfl

theorem percent_in_range_iff (a f l : Int) (hfl : f < l) :
    (8 ≤ ((a - f : Int) : ℚ) / ((l - f : Int) : ℚ) * 84 + 8 ∧
      ((a - f : Int) : ℚ) / ((l - f : Int) : ℚ) * 84 + 8 ≤ 92) ↔ (f ≤ a ∧ a ≤ l) := by
  have hpos : (0 : ℚ) < ((l - f : Int) : ℚ) := by exact_mod_cast (by omega : 0 < l - f)
  have h1 : 8 ≤ ((a - f : Int) : ℚ) / ((l - f : Int) : ℚ) * 84 + 8 ↔ f ≤ a := by
    constructor
    · intro h
      have h0 : 0 ≤ ((a - f : Int) : ℚ) / ((l - f : Int) : ℚ) := by linarith
      have h2 : (0 : ℚ) ≤ ((a - f : Int) : ℚ) := by
        by_contra hneg
        exact absurd h0 (not_le.mpr (div_neg_of_neg_of_pos (not_le.mp hneg) hpos))
      have h3 : (0 : Int) ≤ a - f := by exact_mod_cast h2
      omega
    · intro h
      have h2 : (0 : ℚ) ≤ ((a - f : Int) : ℚ) := by exact_mod_cast (by omega : 0 ≤ a - f)
      have h0 : 0 ≤ ((a - f : Int) : ℚ) / ((l - f : Int) : ℚ) := div_nonneg h2 (le_of_lt hpos)
      linarith
  have h2 : ((a - f : Int) : ℚ) / ((l - f : Int) : ℚ) * 84 + 8 ≤ 92 ↔ a ≤ l := by
    constructor
    · intro h
      have h0 : ((a - f : Int) : ℚ) / ((l - f : Int) : ℚ) ≤ 1 := by linarith
      have h3 : ((a - f : Int) : ℚ) ≤ ((l - f : Int) : ℚ) := by
        have := (div_le_one hpos).mp h0
        exact this
      have h4 : a - f ≤ l - f := by exact_mod_cast h3
      omega
    · intro h
      have h3 : ((a - f : Int) : ℚ) ≤ ((l - f : Int) : ℚ) := by
        exact_mod_cast (by omega : a - f ≤ l - f)
      have h0 : ((a - f : Int) : ℚ) / ((l - f : Int) : ℚ) ≤ 1 := (div_le_one hpos).mpr h3
      linarith
  rw [h1, h2]

theorem markerPercent_in_range_iff (tza : Int → Int) (d : StartDate) (f l : Int)
    (hf : Date tza 2022 10 1 = some f) (hl : Date tza 2025 2 31 = some l) (hfl : f < l) :
    (∃ p : ℚ, markerPercent tza d = some p ∧ 8 ≤ p ∧ p ≤ 92) ↔
      (∃ activeDate : Int, Date tza d.year (d.month - 1) d.day = some activeDate ∧
        f ≤ activeDate ∧ activeDate ≤ l) := by
  constructor
  · rintro ⟨p, hp, h8, h92⟩
    cases ha : Date tza d.year (d.month - 1) d.day with
    | none =>
      rw [markerPercent_none tza d ha] at hp
      exact absurd hp (by simp)
    | some a =>
      rw [markerPercent_some tza d a f l ha hf hl hfl] at hp
      have hp' := Option.some.inj hp
      rw [← hp'] at h8 h92
      exact ⟨a, rfl, (percent_in_range_iff a f l hfl).mp ⟨h8, h92⟩⟩
  · rintro ⟨a, ha, h1, h2⟩
    exact ⟨_, markerPercent_some tza d a f l ha hf hl hfl,
      (percent_in_range_iff a f l hfl).mpr ⟨h1, h2⟩⟩

theorem TimeClip_some (x a : Int) (h : TimeClip x = some a) : a = x := by
  unfold TimeClip at h
  split_ifs at h
  exact (Option.some.inj h).symm

/-- For a calendar date, being between 2022-11-01 and 2025-03-31 is a
condition on the day number that `Date` computes. -/
theorem dateLe_iff_day (d : StartDate) (hcal : calendarDate d) :
    (dateLe ⟨2022, 11, 1⟩ d ∧ dateLe d ⟨2025, 3, 31⟩) ↔
      (19297 ≤ MakeDay (MakeFullYear d.year) (d.month - 1) d.day ∧
        MakeDay (MakeFullYear d.year) (d.month - 1) d.day ≤ 20178) := by
  obtain ⟨hm1, hm12, hd1, hdmax⟩ := hcal
  have h31 := (DaysInMonth_bounds (InLeapYear d.year) (d.month - 1)).2
  have hD : MakeDay (MakeFullYear d.year) (d.month - 1) d.day
      = monthStart (12 * MakeFullYear d.year + (d.month - 1)) + d.day - 1 := by
    rw [MakeDay_of_monthIndex _ _ _ (by omega) (by omega),
      monthStart_eq _ _ (by omega) (by omega)]
  rw [hD]
  unfold dateLe
  simp only []
  by_cases h2d : 0 ≤ d.year ∧ d.year ≤ 99
  · have hY : MakeFullYear d.year = 1900 + d.year := by
      unfold MakeFullYear
      rw [if_pos h2d]
    rw [hY]
    have hv : monthStart (12 * 1999 + 11) = 10926 := by
      rw [monthStart_eq _ _ (by norm_num) (le_refl 11)]
      decide
    have hle : monthStart (12 * (1900 + d.year) + (d.month - 1)) ≤ monthStart (12 * 1999 + 11) :=
      monthStart_mono (by omega)
    rw [hv] at hle
    omega
  · have hY : MakeFullYear d.year = d.year := by
      unfold MakeFullYear
      rw [if_neg h2d]
    rw [hY]
    have hnext := monthStart_next d.year (d.month - 1) (by omega) (by omega)
    have v0 : monthStart (12 * 2022 + 10) = 19297 := by
      rw [monthStart_eq _ _ (by norm_num) (by norm_num)]
      decide
    have v1 : monthStart (12 * 2025 + 2) = 20148 := by
      rw [monthStart_eq _ _ (by norm_num) (by norm_num)]
      decide
    have v2 : monthStart (12 * 2025 + 3) = 20179 := by
      rw [monthStart_eq _ _ (by norm_num) (by norm_num)]
      decide
    have hA : 12 * d.year + (d.month - 1) + 1 ≤ 12 * 2022 + 10 →
        monthStart (12 * d.year + (d.month - 1) + 1) ≤ 19297 := by
      intro h
      rw [← v0]
      exact monthStart_mono h
    have hB : 12 * 2022 + 10 ≤ 12 * d.year + (d.month - 1) →
        19297 ≤ monthStart (12 * d.year + (d.month - 1)) := by
      intro h
      rw [← v0]
      exact monthStart_mono h
    have hC : 12 * d.year + (d.month - 1) + 1 ≤ 12 * 2025 + 2 →
        monthStart (12 * d.year + (d.month - 1) + 1) ≤ 20148 := by
      intro h
      rw [← v1]
      exact monthStart_mono h
    have hE : 12 * 2025 + 3 ≤ 12 * d.year + (d.month - 1) →
        20179 ≤ monthStart (12 * d.year + (d.month - 1)) := by
      intro h
      rw [← v2]
      exact monthStart_mono h
    have hF : 12 * d.year + (d.month - 1) = 12 * 2025 + 2 →
        monthStart (12 * d.year + (d.month - 1)) = 20148 := by
      intro h
      rw [h, v1]
    omega

/-- On a host whose offset varies by less than a day, the time value of a
date is between the bounds exactly when its day number is. -/
theorem Date_between_iff_day (tza : Int → Int) (htz : ∀ t, |tza t| ≤ msPerDay)
    (hvar : ∀ s t, |tza s - tza t| < msPerDay) (y m d : Int) :
    (∃ activeDate : Int, Date tza y m d = some activeDate ∧
        1667260800000 - tza 1667260800000 ≤ activeDate ∧
        activeDate ≤ 1743379200000 - tza 1743379200000) ↔
      (19297 ≤ MakeDay (MakeFullYear y) m d ∧ MakeDay (MakeFullYear y) m d ≤ 20178) := by
  have h1 := abs_lt.mp (hvar (MakeDay (MakeFullYear y) m d * msPerDay) 1667260800000)
  have h2 := abs_lt.mp (hvar (MakeDay (MakeFullYear y) m d * msPerDay) 1743379200000)
  constructor
  · rintro ⟨a, ha, hfa, hal⟩
    have hax := TimeClip_some _ _ ha
    simp only [msPerDay] at *
    constructor <;> omega
  · rintro ⟨hlo, hhi⟩
    have hb : |MakeDay (MakeFullYear y) m d| ≤ 99999999 := by
      rw [abs_le]
      constructor <;> omega
    refine ⟨_, Date_of_day_bound tza htz y m d hb, ?_, ?_⟩
    · rcases eq_or_lt_of_le hlo with he | hlt
      · rw [← he]
        exact le_of_eq rfl
      · simp only [msPerDay] at *
        omega
    · rcases eq_or_lt_of_le hhi with he | hlt
      · rw [he]
        exact le_of_eq rfl
      · simp only [msPerDay] at *
        omega

/-- C7.  On a host whose offset from UTC never exceeds a day, both bounds are
valid dates with the start before the end; the percentage is
`(activeDate - startBound) / (endBound - startBound) * 84 + 8`; it is exactly 8
for an event dated 2022-11-01 and exactly 92 for one dated 2025-03-31; and for
every date it lies in `[8, 92]` if and only if the date lies between the two
bounds (an invalid date gives no number at all).  When the host's offset
varies by less than a day, "between the bounds" is the order of the calendar:
for every calendar date `(year, month, day)`, the percentage lies in `[8, 92]`
if and only if the date is from 2022-11-01 to 2025-03-31. -/
theorem markerPercent_bounds (tza : Int → Int) (htz : ∀ t, |tza t| ≤ msPerDay) :
    markerPercent tza ⟨2022, 11, 1⟩ = some 8 ∧
    markerPercent tza ⟨2025, 3, 31⟩ = some 92 ∧
    (∃ startBound endBound : Int,
      Date tza 2022 10 1 = some startBound ∧ Date tza 2025 2 31 = some endBound ∧
      startBound < endBound ∧
      ∀ d : StartDate,
        (∀ activeDate : Int, Date tza d.year (d.month - 1) d.day = some activeDate →
          markerPercent tza d
            = some (((activeDate - startBound : Int) : ℚ)
                / ((endBound - startBound : Int) : ℚ) * 84 + 8)) ∧
        (Date tza d.year (d.month - 1) d.day = none → markerPercent tza d = none) ∧
        ((∃ p : ℚ, markerPercent tza d = some p ∧ 8 ≤ p ∧ p ≤ 92) ↔
          (∃ activeDate : Int, Date tza d.year (d.month - 1) d.day = some activeDate ∧
            startBound ≤ activeDate ∧ activeDate ≤ endBound))) ∧
    ((∀ s t, |tza s - tza t| < msPerDay) →
      ∀ d : StartDate, calendarDate d →
        ((∃ p : ℚ, markerPercent tza d = some p ∧ 8 ≤ p ∧ p ≤ 92) ↔
          (dateLe ⟨2022, 11, 1⟩ d ∧ dateLe d ⟨2025, 3, 31⟩))) := by
  have hf := firstDate_eq tza htz
  have hl := lastDate_eq tza htz
  have hfl := firstDate_lt_lastDate tza htz
  have hpos : (0 : ℚ) < (((1743379200000 - tza 1743379200000)
      - (1667260800000 - tza 1667260800000) : Int) : ℚ) := by
    exact_mod_cast (by omega :
      0 < (1743379200000 - tza 1743379200000) - (1667260800000 - tza 1667260800000))
  refine ⟨?_, ?_, ⟨_, _, hf, hl, hfl, ?_⟩, ?_⟩
  · rw [markerPercent_some tza ⟨2022, 11, 1⟩ _ _ _ hf hf hl hfl]
    simp
  · rw [markerPercent_some tza ⟨2025, 3, 31⟩ _ _ _ hl hf hl hfl]
    rw [div_self (ne_of_gt hpos)]
    norm_num
  · intro d
    exact ⟨fun a ha => markerPercent_some tza d a _ _ ha hf hl hfl,
      markerPercent_none tza d, markerPercent_in_range_iff tza d _ _ hf hl hfl⟩
  · intro hvar d hcal
    rw [markerPercent_in_range_iff tza d _ _ hf hl hfl,
      Date_between_iff_day tza htz hvar, dateLe_iff_day d hcal]

/-- C7 at a concrete input: a host in UTC, and the dates 2023-06-01 (inside
the bounds) and 2025-04-01 (outside). -/
theorem markerPercent_bounds_witness :
    (∀ t, |utc t| ≤ msPerDay) ∧
    markerPercent utc ⟨2022, 11, 1⟩ = some 8 ∧ markerPercent utc ⟨2025, 3, 31⟩ = some 92 ∧
    (∃ p : ℚ, markerPercent utc ⟨2023, 6, 1⟩ = some p ∧ 8 ≤ p ∧ p ≤ 92) ∧
    ¬ (∃ p : ℚ, markerPercent utc ⟨2025, 4, 1⟩ = some p ∧ 8 ≤ p ∧ p ≤ 92) :=
  have htz : ∀ t, |utc t| ≤ msPerDay := by intro t; simp [utc, msPerDay]
  have hvar : ∀ s t, |utc s - utc t| < msPerDay := by intro s t; simp [utc, msPerDay]
  ⟨htz, (markerPercent_bounds utc htz).1, (markerPercent_bounds utc htz).2.1,
    ((markerPercent_bounds utc htz).2.2.2 hvar ⟨2023, 6, 1⟩ (by decide)).mpr (by decide),
    fun h => absurd (((markerPercent_bounds utc htz).2.2.2 hvar ⟨2025, 4, 1⟩ (by decide)).mp h)
      (by decide)⟩

theorem mem_of_mem_newSet (y : Int) : ∀ l : List Int, y ∈ newSet l → y ∈ l
  | [], h => h
  | x :: xs, h => by
    simp only [newSet, List.mem_cons, List.mem_filter] at h
    rcases h with h | ⟨h, _⟩
    · exact h ▸ List.mem_cons_self x xs
    · exact List.mem_cons_of_mem x (mem_of_mem_newSet y xs h)

theorem foldl_pushYear (tza : Int → Int) (evs : List Event) :
    ∀ (years : List Int) (markers : List Marker),
      (∀ y ∈ years, ∃ e ∈ evs, e.start_date.year = y) →
      ∃ added : List Marker,
        years.foldl (pushYear tza evs) markers = markers ++ added ∧
        ∀ mk ∈ added, ∃ y : Int,
          (mk.label = "Mid " ++ toString y ∨ mk.label = "Late " ++ toString y) ∧
          ∃ e ∈ evs, e.start_date.year = y
  | [], markers, _ => ⟨[], by simp, fun mk h => absurd h (List.not_mem_nil mk)⟩
  | year :: rest, markers, hy => by
    obtain ⟨added, hadd, hprop⟩ := foldl_pushYear tza evs rest (pushYear tza evs markers year)
      (fun y h => hy y (List.mem_cons_of_mem year h))
    have hyear := hy year (List.mem_cons_self year rest)
    by_cases hhalf : (hasFirstHalf evs year || hasSecondHalf evs year) = true
    · refine ⟨⟨"Mid " ++ toString year, Date tza year 5 1⟩ ::
        ⟨"Late " ++ toString year, Date tza year 11 1⟩ :: added, ?_, ?_⟩
      · rw [List.foldl_cons, hadd]
        simp [pushYear, hhalf]
      · intro mk hmk
        simp only [List.mem_cons] at hmk
        rcases hmk with h | h | h
        · exact ⟨year, Or.inl (by rw [h]), hyear⟩
        · exact ⟨year, Or.inr (by rw [h]), hyear⟩
        · exact hprop mk h
    · refine ⟨⟨"Late " ++ toString year, Date tza year 11 1⟩ :: added, ?_, ?_⟩
      · rw [List.foldl_cons, hadd]
        simp [pushYear, hhalf]
      · intro mk hmk
        simp only [List.mem_cons] at hmk
        rcases hmk with h | h
        · exact ⟨year, Or.inr (by rw [h]), hyear⟩
        · exact hprop mk h

/-- C10, as the code has it.  The markers are the fixed 'Late 2022', then the
generated ones, then the fixed 'Early 2025'; every generated marker is
'Mid Y' or 'Late Y' for a year `Y` in which some event falls (in either half
of the year). -/
theorem seasonalMarkers_years (tza : Int → Int) (evs : List Event) :
    ∃ generated : List Marker,
      seasonalMarkers tza evs
        = ⟨"Late 2022", Date tza 2022 6 1⟩ :: generated ++ [⟨"Early 2025", Date tza 2025 2 1⟩] ∧
      ∀ mk ∈ generated, ∃ y : Int,
        (mk.label = "Mid " ++ toString y ∨ mk.label = "Late " ++ toString y) ∧
        ∃ e ∈ evs, e.start_date.year = y := by
  have hyears : ∀ y ∈ (newSet (evs.map (fun event => event.start_date.year))).drop 1,
      ∃ e ∈ evs, e.start_date.year = y := by
    intro y hy
    have h1 := mem_of_mem_newSet y _ (List.mem_of_mem_drop hy)
    obtain ⟨e, he, hey⟩ := List.mem_map.mp h1
    exact ⟨e, he, hey⟩
  obtain ⟨added, hadd, hprop⟩ := foldl_pushYear tza evs _
    [⟨"Late 2022", Date tza 2022 6 1⟩] hyears
  refine ⟨added, ?_, hprop⟩
  unfold seasonalMarkers
  simp only []
  rw [hadd]
  rfl

/-- C10 as stated fails: with events in 2022 and in August 2023 only, a
'Mid 2023' marker is generated though no event of 2023 has month <= 6; with
events in 2022 and in March 2023 only, a 'Late 2023' marker is generated
though no event of 2023 has month > 6. -/
theorem seasonalMarkers_empty_half :
    ((seasonalMarkers utc secondHalfData).map (fun mk => mk.label)
        = ["Late 2022", "Mid 2023", "Late 2023", "Early 2025"] ∧
      ¬ ∃ e ∈ secondHalfData, e.start_date.year = 2023 ∧ e.start_date.month ≤ 6) ∧
    ((seasonalMarkers utc firstHalfData).map (fun mk => mk.label)
        = ["Late 2022", "Mid 2023", "Late 2023", "Early 2025"] ∧
      ¬ ∃ e ∈ firstHalfData, e.start_date.year = 2023 ∧ e.start_date.month > 6) := by
  decide

end Timeline
